import Mathlib

/-!
Verification of the read-receipt delivery pipeline of
`src/data-access/messages-operations.ts` (with its collaborators in
`src/lib/services/network-monitor.ts`): admission/deduplication (`offer`),
count-or-time batching (`Stream.groupedWithin(25, 5 seconds)`),
network-gated dispatch, bounded retry
(`Effect.retry({ times: 3, schedule: Schedule.exponential(500ms, 2) })`),
and the optimistic read-status merge (`messagesWithReadStatus`).
-/

namespace ReadReceipt

/-- A message identifier; the TS `MessageId` is an opaque string. -/
abbrev MessageId := String

/-- JS `Set.has`, over the insertion-ordered list model of a JS `Set<string>`. -/
def setHas (s : List MessageId) (id : MessageId) : Bool :=
  s.contains id

/-- JS `Set.add`: inserting an element already present leaves the set unchanged;
a new element is appended (JS sets preserve insertion order). -/
def setAdd (s : List MessageId) (id : MessageId) : List MessageId :=
  if s.contains id then s else s ++ [id]

/-- The state read and written by the `offer` callback of
`useMarkMessagesAsRead` (messages-operations.ts lines 91-108):
  * `queuedMessageIds` — the module-level dedup `Set<string>` (line 34);
  * `markAsReadQueue` — the contents of the unbounded FIFO intake queue
    owned by `batchProcessorAtom` (line 41), oldest first;
  * `readMessageIds` — the React-state optimistic read set (line 81);
  * `processorReady` — whether `Result.isSuccess(processorResult)` holds
    (line 100), i.e. whether the batch processor has initialized. -/
structure OfferState where
  queuedMessageIds : List MessageId
  markAsReadQueue : List MessageId
  readMessageIds : List MessageId
  processorReady : Bool
deriving Repr, DecidableEq

/-- The `offer` callback (messages-operations.ts lines 91-108): if the id is
already in the module-level dedup set it returns at once; otherwise it adds the
id to the dedup set, offers it to the intake queue when the processor result is
a success, and adds it to the optimistic read set. -/
def offer (s : OfferState) (id : MessageId) : OfferState :=
  if s.queuedMessageIds.contains id then s
  else
    { queuedMessageIds := s.queuedMessageIds ++ [id]
      markAsReadQueue :=
        if s.processorReady then s.markAsReadQueue ++ [id] else s.markAsReadQueue
      readMessageIds := setAdd s.readMessageIds id
      processorReady := s.processorReady }

/-- The value the TS `offer` returns to its caller: both the early
`return;` taken on a duplicate id and the implicit fall-through return at the
end of the function body yield `undefined`, embedded as `none`; the function
never produces a boolean. -/
def offerReturn (s : OfferState) (id : MessageId) : Option Bool :=
  if s.queuedMessageIds.contains id then none else none

/-- The pipeline's initial state: empty dedup set, empty queue, empty
optimistic read set, with the batch processor initialized. -/
def offerInit : OfferState :=
  { queuedMessageIds := []
    markAsReadQueue := []
    readMessageIds := []
    processorReady := true }

/-- A sequence of `offer` calls, oldest first. -/
def runOffers (s : OfferState) (ids : List MessageId) : OfferState :=
  ids.foldl offer s

/-- Invariant carried through any sequence of `offer` calls: the intake queue
and the optimistic read set hold `id` at most once, and hold it not at all
while `id` is outside the dedup set. -/
def AdmitInv (s : OfferState) (id : MessageId) : Prop :=
  (s.queuedMessageIds.contains id = false →
    s.markAsReadQueue.count id = 0 ∧ s.readMessageIds.count id = 0) ∧
  s.markAsReadQueue.count id ≤ 1 ∧ s.readMessageIds.count id ≤ 1

/-- An `OfferState` whose batch processor has not initialized
(`Result.isSuccess(processorResult)` is false), before any admission. -/
def offerUninit : OfferState :=
  { queuedMessageIds := []
    markAsReadQueue := []
    readMessageIds := []
    processorReady := false }

/-! ### The batcher: `Stream.groupedWithin(25, Duration.seconds(5))` -/

/-- An observable event of the batching stage (messages-operations.ts
line 45): an id arriving from the intake queue, or the 5-second window timer
firing. -/
inductive BatchEvent where
  | arrive (id : MessageId)
  | timerFire
deriving Repr, DecidableEq

/-- The batcher's state: the ids buffered in the current window (oldest
first) and the batches emitted so far (oldest first). -/
structure BatcherState where
  buffer : List MessageId
  emitted : List (List MessageId)
deriving Repr, DecidableEq

/-- One step of `Stream.groupedWithin(25, Duration.seconds(5))`: an arriving
id is appended to the window buffer, and the buffer is emitted as a batch as
soon as it holds 25 ids; when the window timer fires, a non-empty buffer is
emitted and an empty buffer emits nothing. -/
def batcherStep (s : BatcherState) (e : BatchEvent) : BatcherState :=
  match e with
  | .arrive id =>
      let buf := s.buffer ++ [id]
      if 25 ≤ buf.length then { buffer := [], emitted := s.emitted ++ [buf] }
      else { buffer := buf, emitted := s.emitted }
  | .timerFire =>
      if s.buffer.isEmpty then s
      else { buffer := [], emitted := s.emitted ++ [s.buffer] }

/-- Run the batcher from an arbitrary state over a sequence of events. -/
def batcherRunFrom (s : BatcherState) (evs : List BatchEvent) : BatcherState :=
  evs.foldl batcherStep s

/-- Run the batcher from its initial (empty) state. -/
def batcherRun (evs : List BatchEvent) : BatcherState :=
  batcherRunFrom { buffer := [], emitted := [] } evs

/-- The ids that arrived at the batcher, in arrival order. -/
def arrivals (evs : List BatchEvent) : List MessageId :=
  evs.filterMap fun e =>
    match e with
    | .arrive id => some id
    | .timerFire => none

/-! ### The network gate and the dispatch order -/

/-- An observable event of the gated dispatch stage: the batcher submits a
batch for dispatch, the external connectivity observer sets the latch
(`true` = OPEN, on the platform's online event; `false` = CLOSED, on
offline), or the single dispatcher fiber gets a chance to run. -/
inductive GateEvent where
  | submit (b : List MessageId)
  | setGate (g : Bool)
  | tick
deriving Repr, DecidableEq

/-- State of the gated dispatch stage: the latch, the batches submitted but
not yet dispatched (oldest first), and the batches already handed to the
remote `markAsRead` endpoint, in dispatch order. -/
structure GateSystem where
  gateOpen : Bool
  pending : List (List MessageId)
  dispatched : List (List MessageId)
deriving Repr, DecidableEq

/-- Modelled from the spec: the source pipes each `markAsRead` call through
`networkMonitor.latch.whenOpen` (messages-operations.ts line 54), but the
`latch` member is absent from the `NetworkMonitor` declaration in the sources
(network-monitor.ts lines 3-9 expose only `isOnline` and `onOnline`); §4.4 of
the spec gives the latch contract — `whenOpen` suspends the wrapped call
while the latch is CLOSED and releases suspended calls in FIFO order once it
is OPEN. A `tick` therefore dispatches the oldest pending batch only while
the gate is open, and is a no-op while it is closed. -/
def gateStep (s : GateSystem) (e : GateEvent) : GateSystem :=
  match e with
  | .submit b => { s with pending := s.pending ++ [b] }
  | .setGate g => { s with gateOpen := g }
  | .tick =>
      if s.gateOpen then
        match s.pending with
        | [] => s
        | b :: rest => { s with pending := rest, dispatched := s.dispatched ++ [b] }
      else s

/-- Run the gated dispatch stage from an arbitrary state. -/
def gateRunFrom (s : GateSystem) (evs : List GateEvent) : GateSystem :=
  evs.foldl gateStep s

/-- Run the gated dispatch stage from an empty start with initial latch state
`g0` (seeded from the platform's connectivity at pipeline start). -/
def gateRun (g0 : Bool) (evs : List GateEvent) : GateSystem :=
  gateRunFrom { gateOpen := g0, pending := [], dispatched := [] } evs

/-- The batches submitted for dispatch, in submission order. -/
def submits (evs : List GateEvent) : List (List MessageId) :=
  evs.filterMap fun e =>
    match e with
    | .submit b => some b
    | .setGate _ => none
    | .tick => none

/-! ### The retry policy:
`Effect.retry({ times: 3, schedule: Schedule.exponential("500 millis", 2) })` -/

/-- The delay, in milliseconds, of the k-th recurrence (0-indexed) of
`Schedule.exponential("500 millis", 2)`: 500 · 2^k. -/
def exponentialDelay (k : Nat) : Nat := 500 * 2 ^ k

/-- Modelled from the documented semantics of `Effect.retry` with
`{ times, schedule }` (messages-operations.ts line 55): the wrapped effect
runs once, and while it fails and fewer than `times` retries have been taken,
the schedule's next delay elapses and the effect runs again. `ok n` says
whether the n-th call (1-indexed) succeeds. The result is the total number of
calls made and the list of delays slept between consecutive calls, for a run
starting at call number `attempt` with `retriesLeft` retries remaining. -/
def retryRun (ok : Nat → Bool) : Nat → Nat → Nat × List Nat
  | retriesLeft, attempt =>
    if ok attempt then (1, [])
    else
      match retriesLeft with
      | 0 => (1, [])
      | n + 1 =>
          let rest := retryRun ok n (attempt + 1)
          (1 + rest.1, exponentialDelay (attempt - 1) :: rest.2)

/-- One batch's dispatch attempt sequence as configured in the source:
`times: 3` retries on top of the initial call, exponential base 500ms,
factor 2. -/
def retryDispatch (ok : Nat → Bool) : Nat × List Nat :=
  retryRun ok 3 1

/-! ### The dispatcher loop: `Stream.mapEffect(..., concurrency 1)` with
`Effect.catchAllCause` -/

/-- State threaded through the dispatcher loop (messages-operations.ts lines
47-60): the admission-time state plus the batches acknowledged by the remote
endpoint and the batches whose retries were exhausted, whose cause was
logged by `Effect.catchAllCause`. -/
structure DispatchState where
  admitState : OfferState
  acked : List (List MessageId)
  failedLog : List (List MessageId)
deriving Repr, DecidableEq

/-- Process one batch: the dispatch (after its retry sequence resolves)
either succeeds or fails terminally; `Effect.catchAllCause` turns the
terminal failure into a logged success, so the consuming stream continues
either way. `permFails b` says whether every attempt for batch `b` fails.
The dispatcher never writes the admission-time state: lines 47-60 touch
neither `queuedMessageIds` nor the React read-set. -/
def processBatch (permFails : List MessageId → Bool) (s : DispatchState)
    (b : List MessageId) : DispatchState :=
  if permFails b then { s with failedLog := s.failedLog ++ [b] }
  else { s with acked := s.acked ++ [b] }

/-- The dispatcher loop over a sequence of batches, one at a time
(`concurrency: 1`). -/
def processBatches (permFails : List MessageId → Bool) (s : DispatchState)
    (bs : List (List MessageId)) : DispatchState :=
  bs.foldl (processBatch permFails) s

/-- The dispatcher's state before any batch has been processed. -/
def dispatchInit : DispatchState :=
  { admitState := offerInit, acked := [], failedLog := [] }

/-! ### The optimistic read-status merge -/

/-- Modelled from the spec and the hook code: the `Message` record of
`@/types/message` is not among the sources; the pipeline reads only `id` and
`readAt` (null = unread), so the remaining fields are collapsed into
`payload`. -/
structure Message where
  id : MessageId
  readAt : Option Nat
  payload : String
deriving Repr, DecidableEq

/-- `messagesWithReadStatus` (messages-operations.ts lines 188-196): the
`useMemo` body maps each message, replacing a null `readAt` by
`DateTime.unsafeNow()` when the id is in the optimistic read set. `now` is
the wall clock at the evaluation of the memo — a fresh value each time the
memo recomputes; no timestamp is stored anywhere at admission. -/
def messagesWithReadStatus (messages : List Message)
    (readMessageIds : List MessageId) (now : Nat) : List Message :=
  messages.map fun msg =>
    if readMessageIds.contains msg.id = true ∧ msg.readAt = none
    then { msg with readAt := some now }
    else msg

/-- A concrete unread message, for witnesses and counterexamples. -/
def exampleMessage : Message :=
  { id := "m1", readAt := none, payload := "hello" }

/- Basic lemmas about `offer`. -/

theorem offer_of_mem (s : OfferState) (id : MessageId)
    (h : s.queuedMessageIds.contains id = true) : offer s id = s := by
  have h' : id ∈ s.queuedMessageIds := by simpa using h
  simp [offer, h']

theorem offer_queued_contains (s : OfferState) (id : MessageId) :
    (offer s id).queuedMessageIds.contains id = true := by
  unfold offer
  by_cases h : id ∈ s.queuedMessageIds
  · simp [h]
  · simp [h]

theorem offer_queued_mono (s : OfferState) (i j : MessageId)
    (h : s.queuedMessageIds.contains i = true) :
    (offer s j).queuedMessageIds.contains i = true := by
  have h' : i ∈ s.queuedMessageIds := by simpa using h
  unfold offer
  by_cases hj : j ∈ s.queuedMessageIds
  · simp [hj, h']
  · simp [hj]
    exact Or.inl h'

theorem runOffers_queued_mono (ids : List MessageId) (s : OfferState)
    (i : MessageId) (h : s.queuedMessageIds.contains i = true) :
    (runOffers s ids).queuedMessageIds.contains i = true := by
  induction ids generalizing s with
  | nil => simpa [runOffers] using h
  | cons j rest ih =>
    simp only [runOffers, List.foldl_cons]
    exact ih (offer s j) (offer_queued_mono s i j h)

theorem setAdd_contains (l : List MessageId) (id : MessageId) :
    (setAdd l id).contains id = true := by
  unfold setAdd
  by_cases h : id ∈ l
  · simp [h]
  · simp [h]

theorem offer_of_not_mem (s : OfferState) (id : MessageId)
    (h : id ∉ s.queuedMessageIds) :
    offer s id =
      { queuedMessageIds := s.queuedMessageIds ++ [id]
        markAsReadQueue :=
          if s.processorReady then s.markAsReadQueue ++ [id] else s.markAsReadQueue
        readMessageIds := setAdd s.readMessageIds id
        processorReady := s.processorReady } := by
  simp [offer, h]

theorem offer_preserves_AdmitInv (s : OfferState) (j id : MessageId)
    (h : AdmitInv s id) : AdmitInv (offer s j) id := by
  by_cases hj : j ∈ s.queuedMessageIds
  · rwa [offer_of_mem s j (by simpa using hj)]
  · rw [offer_of_not_mem s j hj]
    obtain ⟨h0, h1, h2⟩ := h
    unfold AdmitInv
    by_cases hid : id = j
    · subst hid
      have hz := h0 (by simpa using hj)
      have hnm : id ∉ s.readMessageIds := by
        simpa [List.count_eq_zero] using hz.2
      refine ⟨?_, ?_, ?_⟩
      · intro hc
        simp at hc
      · by_cases hp : s.processorReady
        · simp [hp, List.count_append, hz.1]
        · simp [hp, hz.1]
      · simp [setAdd, hnm, List.count_append, hz.2]
    · have hcq : ∀ l : List MessageId, (l ++ [j]).count id = l.count id := by
        intro l
        simp [List.count_append, List.count_singleton', hid]
      refine ⟨?_, ?_, ?_⟩
      · intro hc
        have hidq : id ∉ s.queuedMessageIds := by
          intro hm
          exact absurd (by simp [hm] : id ∈ s.queuedMessageIds ++ [j]) (by simpa using hc)
        have hz := h0 (by simpa using hidq)
        constructor
        · by_cases hp : s.processorReady
          · simpa [hp, hcq] using hz.1
          · simpa [hp] using hz.1
        · unfold setAdd
          by_cases hm : j ∈ s.readMessageIds
          · simpa [hm] using hz.2
          · simpa [hm, hcq] using hz.2
      · by_cases hp : s.processorReady
        · simpa [hp, hcq] using h1
        · simpa [hp] using h1
      · unfold setAdd
        by_cases hm : j ∈ s.readMessageIds
        · simpa [hm] using h2
        · simpa [hm, hcq] using h2

theorem runOffers_preserves_AdmitInv (ids : List MessageId) (s : OfferState)
    (id : MessageId) (h : AdmitInv s id) : AdmitInv (runOffers s ids) id := by
  induction ids generalizing s with
  | nil => simpa [runOffers] using h
  | cons j rest ih =>
    simp only [runOffers, List.foldl_cons]
    exact ih (offer s j) (offer_preserves_AdmitInv s j id h)

/-! ### Claim theorems: admission -/

/-- C1: At-most-once admission — once a first `offer(id)` has completed, any
subsequent `offer(id)`, with arbitrary other calls in between, performs no
queue offer and no optimistic-state write (it leaves the state unchanged);
over any sequence of calls from the initial state, the id is offered to the
intake queue at most once and added to the optimistic read set at most
once. -/
theorem at_most_once_admission (s₀ : OfferState) (id : MessageId)
    (mid ids : List MessageId) :
    offer (runOffers (offer s₀ id) mid) id = runOffers (offer s₀ id) mid ∧
    (runOffers offerInit ids).markAsReadQueue.count id ≤ 1 ∧
    (runOffers offerInit ids).readMessageIds.count id ≤ 1 := by
  refine ⟨?_, ?_, ?_⟩
  · exact offer_of_mem _ id
      (runOffers_queued_mono mid _ id (offer_queued_contains s₀ id))
  · exact (runOffers_preserves_AdmitInv ids offerInit id
      (by unfold AdmitInv offerInit; simp)).2.1
  · exact (runOffers_preserves_AdmitInv ids offerInit id
      (by unfold AdmitInv offerInit; simp)).2.2

/-- C5 counterexample: the read timestamp shown for an admitted id is not
stable — with id "m1" admitted once (no second marking at all), evaluating
the merge at clock 5 shows `readAt = some 5` while evaluating it at clock 7
shows `readAt = some 7`, two distinct timestamps for the same id; no
timestamp is assigned at admission. -/
theorem optimistic_timestamp_counterexample :
    (messagesWithReadStatus [exampleMessage]
      (offer offerInit "m1").readMessageIds 5).map Message.readAt = [some 5] ∧
    (messagesWithReadStatus [exampleMessage]
      (offer offerInit "m1").readMessageIds 7).map Message.readAt = [some 7] ∧
    (some 5 : Option Nat) ≠ some 7 := by
  decide

/-- C5 (amended): marking the same MessageId read a second time is a complete
no-op on the pipeline state (dedup set, intake queue and optimistic read set
are all unchanged), so the second marking itself never records anything; the
`readAt` timestamp shown for an optimistically read message, however, is not
stored at admission but recomputed from the wall clock at each evaluation of
the merge. -/
theorem optimistic_mark_idempotent (s : OfferState) (id : MessageId)
    (msgs : List Message) (now : Nat) :
    offer (offer s id) id = offer s id ∧
    messagesWithReadStatus msgs (offer (offer s id) id).readMessageIds now
      = messagesWithReadStatus msgs (offer s id).readMessageIds now := by
  have h := offer_of_mem (offer s id) id (offer_queued_contains s id)
  exact ⟨h, by rw [h]⟩

/-- C6 counterexample: admission does not return a boolean — at the concrete
input "a", a fresh admission does not return `true` and a duplicate admission
does not return `false`; both paths of the TS function return `undefined`. -/
theorem admission_return_counterexample :
    offerReturn offerInit "a" ≠ some true ∧
    offerReturn (offer offerInit "a") "a" ≠ some false := by
  decide

/-- C6 (amended): the admission operation `offer` returns no value
(`undefined`, embedded as `none`) in either case; behaviorally, when the id
is already in the dedup set the call performs no further action, and when the
id is fresh it appends it to the dedup set, adds it to the optimistic read
set, and — when the batch processor is initialized — offers it to the intake
queue. -/
theorem admission_behavior (s : OfferState) (id : MessageId) :
    offerReturn s id = none ∧
    (s.queuedMessageIds.contains id = true → offer s id = s) ∧
    (s.queuedMessageIds.contains id = false →
      (offer s id).queuedMessageIds = s.queuedMessageIds ++ [id] ∧
      (offer s id).readMessageIds.contains id = true ∧
      (s.processorReady = true →
        (offer s id).markAsReadQueue = s.markAsReadQueue ++ [id])) := by
  refine ⟨by unfold offerReturn; split <;> rfl, offer_of_mem s id, ?_⟩
  intro hfresh
  have hnm : id ∉ s.queuedMessageIds := by simpa using hfresh
  rw [offer_of_not_mem s id hnm]
  refine ⟨rfl, setAdd_contains _ id, ?_⟩
  intro hp
  simp [hp]

/-- C6 witness: the amended behavior at the concrete fresh id "a" in the
initial state. -/
theorem admission_behavior_witness :
    offerReturn offerInit "a" = none ∧
    (offer offerInit "a").queuedMessageIds = offerInit.queuedMessageIds ++ ["a"] ∧
    (offer offerInit "a").readMessageIds.contains "a" = true ∧
    (offer offerInit "a").markAsReadQueue = offerInit.markAsReadQueue ++ ["a"] :=
  ⟨(admission_behavior offerInit "a").1,
   ((admission_behavior offerInit "a").2.2 (by decide)).1,
   ((admission_behavior offerInit "a").2.2 (by decide)).2.1,
   ((admission_behavior offerInit "a").2.2 (by decide)).2.2 rfl⟩

/-- C7: Local-first admission under uninitialized dispatch — admitting a
fresh id while the batch processor is not initialized leaves the intake queue
untouched (the offer is dropped) yet still records the id in the dedup set
and the optimistic read set; the operation is total, so admission never
fails. -/
theorem local_first_admission (s : OfferState) (id : MessageId)
    (hready : s.processorReady = false)
    (hfresh : s.queuedMessageIds.contains id = false) :
    (offer s id).markAsReadQueue = s.markAsReadQueue ∧
    (offer s id).readMessageIds.contains id = true ∧
    (offer s id).queuedMessageIds.contains id = true := by
  have hnm : id ∉ s.queuedMessageIds := by simpa using hfresh
  rw [offer_of_not_mem s id hnm]
  refine ⟨by simp [hready], setAdd_contains _ id, by simp⟩

/-- C7 witness: admitting "a" in the uninitialized initial state. -/
theorem local_first_admission_witness :
    (offer offerUninit "a").markAsReadQueue = offerUninit.markAsReadQueue ∧
    (offer offerUninit "a").readMessageIds.contains "a" = true ∧
    (offer offerUninit "a").queuedMessageIds.contains "a" = true :=
  local_first_admission offerUninit "a" (by decide) (by decide)

/-! ### Claim theorems: retry -/

theorem retryRun_calls_le (ok : Nat → Bool) (r a : Nat) :
    (retryRun ok r a).1 ≤ r + 1 := by
  induction r generalizing a with
  | zero =>
    unfold retryRun
    split
    · simp
    · simp
  | succ n ih =>
    unfold retryRun
    split
    · simp
    · have := ih (a + 1)
      simp only []
      omega

/-- C3 counterexample: against a permanently failing endpoint a single batch
receives 4 calls — the initial call plus the configured `times: 3` retries —
exceeding the claimed bound of 3 total attempts. -/
theorem retry_bound_counterexample :
    (retryDispatch (fun _ => false)).1 = 4 ∧
    ¬ (retryDispatch (fun _ => false)).1 ≤ 3 := by
  decide

/-- C3 (amended): a dispatch that fails on calls 1 and 2 and succeeds on
call 3 makes exactly 3 calls, with delays of 500ms (base) and 1000ms (base·2)
between them and no further retry afterward; in general the number of calls
for one batch is bounded by 4 — the initial call plus the configured
`times: 3` retries — not by 3. -/
theorem retry_schedule (ok : Nat → Bool)
    (h1 : ok 1 = false) (h2 : ok 2 = false) (h3 : ok 3 = true) :
    retryDispatch ok = (3, [500, 1000]) ∧
    ∀ ok2 : Nat → Bool, (retryDispatch ok2).1 ≤ 4 := by
  constructor
  · unfold retryDispatch
    unfold retryRun
    rw [h1]
    unfold retryRun
    rw [h2]
    unfold retryRun
    rw [h3]
    simp [exponentialDelay]
  · intro ok2
    exact retryRun_calls_le ok2 3 1

/-- C3 witness: the fail-fail-succeed scenario at the concrete outcome
function succeeding from the third call on. -/
theorem retry_schedule_witness :
    retryDispatch (fun n => decide (3 ≤ n)) = (3, [500, 1000]) :=
  (retry_schedule (fun n => decide (3 ≤ n))
    (by decide) (by decide) (by decide)).1

/-! ### Claim theorems: batching -/

/-- Invariant of the batcher: the open window holds fewer than 25 ids, and
every batch emitted so far has between 1 and 25 ids. -/
def BatchInv (s : BatcherState) : Prop :=
  s.buffer.length < 25 ∧ ∀ b ∈ s.emitted, 1 ≤ b.length ∧ b.length ≤ 25

theorem batcherStep_preserves_BatchInv (s : BatcherState) (e : BatchEvent)
    (h : BatchInv s) : BatchInv (batcherStep s e) := by
  obtain ⟨hlen, hall⟩ := h
  cases e with
  | arrive id =>
    unfold batcherStep
    dsimp only
    split
    · next hge =>
      refine ⟨by simp, ?_⟩
      intro b hb
      simp only [List.mem_append, List.mem_singleton] at hb
      rcases hb with hb | hb
      · exact hall b hb
      · subst hb
        constructor
        · simp
        · simp only [List.length_append, List.length_singleton]
          omega
    · next hlt =>
      simp only [List.length_append, List.length_singleton] at hlt
      exact ⟨by simp only [List.length_append, List.length_singleton]; omega, hall⟩
  | timerFire =>
    unfold batcherStep
    dsimp only
    split
    · exact ⟨hlen, hall⟩
    · next hne =>
      refine ⟨by simp, ?_⟩
      intro b hb
      simp only [List.mem_append, List.mem_singleton] at hb
      rcases hb with hb | hb
      · exact hall b hb
      · subst hb
        have : s.buffer ≠ [] := by simpa [List.isEmpty_iff] using hne
        exact ⟨by cases hbuf : s.buffer with
          | nil => exact absurd hbuf this
          | cons x xs => simp [hbuf], le_of_lt hlen⟩

theorem batcherRunFrom_preserves_BatchInv (evs : List BatchEvent)
    (s : BatcherState) (h : BatchInv s) : BatchInv (batcherRunFrom s evs) := by
  induction evs generalizing s with
  | nil => simpa [batcherRunFrom] using h
  | cons e rest ih =>
    simp only [batcherRunFrom, List.foldl_cons]
    exact ih (batcherStep s e) (batcherStep_preserves_BatchInv s e h)

theorem batcherRun_BatchInv (evs : List BatchEvent) :
    BatchInv (batcherRun evs) :=
  batcherRunFrom_preserves_BatchInv evs _ (by constructor <;> simp)

theorem batcherRun_append_single (evs : List BatchEvent) (e : BatchEvent) :
    batcherRun (evs ++ [e]) = batcherStep (batcherRun evs) e := by
  simp [batcherRun, batcherRunFrom, List.foldl_append]

/-- C4: Windowing — over any event sequence, every emitted batch has between
1 and 25 ids; a window-timer fire flushes the whole buffer (so no buffered id
survives past the window close); the timer fire emits a batch exactly when at
least one id is buffered (an empty window emits nothing); and an arriving id
closes the window exactly when it brings the buffer to 25. -/
theorem batcherStep_timerFire (s : BatcherState) :
    batcherStep s BatchEvent.timerFire =
      if s.buffer.isEmpty then s
      else { buffer := [], emitted := s.emitted ++ [s.buffer] } := rfl

theorem batcherStep_arrive (s : BatcherState) (id : MessageId) :
    batcherStep s (BatchEvent.arrive id) =
      if 25 ≤ (s.buffer ++ [id]).length then
        { buffer := [], emitted := s.emitted ++ [s.buffer ++ [id]] }
      else { buffer := s.buffer ++ [id], emitted := s.emitted } := rfl

theorem append_singleton_ne (l : List (List MessageId)) (b : List MessageId) :
    l ++ [b] ≠ l := by
  intro h
  have := congrArg List.length h
  simp at this

theorem groupedWithin_windowing (evs : List BatchEvent) (id : MessageId) :
    (∀ b ∈ (batcherRun evs).emitted, 1 ≤ b.length ∧ b.length ≤ 25) ∧
    (batcherRun (evs ++ [BatchEvent.timerFire])).buffer = [] ∧
    ((batcherRun (evs ++ [BatchEvent.timerFire])).emitted
        = (batcherRun evs).emitted ↔ (batcherRun evs).buffer = []) ∧
    ((batcherRun (evs ++ [BatchEvent.arrive id])).emitted
        ≠ (batcherRun evs).emitted ↔ (batcherRun evs).buffer.length + 1 = 25) := by
  obtain ⟨hlen, hall⟩ := batcherRun_BatchInv evs
  rw [batcherRun_append_single evs BatchEvent.timerFire,
    batcherRun_append_single evs (BatchEvent.arrive id),
    batcherStep_timerFire, batcherStep_arrive]
  by_cases hbuf : (batcherRun evs).buffer = []
  · refine ⟨hall, ?_, ?_, ?_⟩
    · simp [hbuf]
    · simp [hbuf]
    · simp only [hbuf]
      constructor
      · intro hne
        exfalso
        have h1 : ¬ (25 ≤ (([] : List MessageId) ++ [id]).length) := by simp
        rw [if_neg h1] at hne
        exact hne rfl
      · intro h25
        simp at h25
  · have hne : (batcherRun evs).buffer.isEmpty = false := by
      cases hb : (batcherRun evs).buffer with
      | nil => exact absurd hb hbuf
      | cons x xs => simp [hb]
    refine ⟨hall, ?_, ?_, ?_⟩
    · simp [hne]
    · rw [if_neg (by simp [hne])]
      simp only []
      constructor
      · intro h
        exact absurd h (append_singleton_ne _ _)
      · intro hb
        exact absurd hb hbuf
    · by_cases h25 : (batcherRun evs).buffer.length + 1 = 25
      · rw [if_pos (by simp; omega)]
        simp only []
        exact ⟨fun _ => h25, fun _ => append_singleton_ne _ _⟩
      · rw [if_neg (by simp; omega)]
        simp only []
        exact ⟨fun h => absurd rfl h, fun hh => absurd hh h25⟩

/-- C4 witness: with 24 ids buffered, the 25th arrival emits a batch of 25;
after one id and a timer fire, the emitted batch `["a0"]` has size between
1 and 25 and the buffer is flushed. -/
theorem groupedWithin_windowing_witness :
    (1 ≤ (["a0"] : List MessageId).length ∧ (["a0"] : List MessageId).length ≤ 25) ∧
    (batcherRun ([BatchEvent.arrive "a0"] ++ [BatchEvent.timerFire])).buffer = [] ∧
    ((batcherRun ([BatchEvent.arrive "a0"] ++ [BatchEvent.timerFire])).emitted
        = (batcherRun [BatchEvent.arrive "a0"]).emitted
      ↔ (batcherRun [BatchEvent.arrive "a0"]).buffer = []) :=
  ⟨(groupedWithin_windowing [BatchEvent.arrive "a0", BatchEvent.timerFire] "b").1
      ["a0"] (by decide),
   (groupedWithin_windowing [BatchEvent.arrive "a0"] "b").2.1,
   (groupedWithin_windowing [BatchEvent.arrive "a0"] "b").2.2.1⟩

theorem batcherRunFrom_flatten (evs : List BatchEvent) (s : BatcherState) :
    (batcherRunFrom s evs).emitted.flatten ++ (batcherRunFrom s evs).buffer
      = s.emitted.flatten ++ s.buffer ++ arrivals evs := by
  induction evs generalizing s with
  | nil => simp [batcherRunFrom, arrivals]
  | cons e rest ih =>
    simp only [batcherRunFrom, List.foldl_cons] at ih ⊢
    rw [ih (batcherStep s e)]
    cases e with
    | arrive id =>
      rw [batcherStep_arrive]
      by_cases h : 25 ≤ (s.buffer ++ [id]).length
      · rw [if_pos h]
        simp [arrivals]
      · rw [if_neg h]
        simp [arrivals]
    | timerFire =>
      rw [batcherStep_timerFire]
      by_cases h : s.buffer.isEmpty = true
      · rw [if_pos h]
        have : s.buffer = [] := by simpa using h
        simp [arrivals, this]
      · rw [if_neg h]
        simp [arrivals]

/-- C9: Order preservation — over any event sequence, the concatenation of
the emitted batches followed by the still-open window buffer is exactly the
sequence of ids in arrival order; in particular, ids admitted before a window
closes appear in the emitted batch in their admission order. -/
theorem admission_order_preserved (evs : List BatchEvent) :
    (batcherRun evs).emitted.flatten ++ (batcherRun evs).buffer
      = arrivals evs := by
  have h := batcherRunFrom_flatten evs { buffer := [], emitted := [] }
  simpa [batcherRun] using h

/-! ### Claim theorems: the network gate -/

theorem gateStep_submit (s : GateSystem) (b : List MessageId) :
    gateStep s (GateEvent.submit b) = { s with pending := s.pending ++ [b] } := rfl

theorem gateStep_setGate (s : GateSystem) (g : Bool) :
    gateStep s (GateEvent.setGate g) = { s with gateOpen := g } := rfl

theorem gateStep_tick_closed (s : GateSystem) (h : s.gateOpen = false) :
    gateStep s GateEvent.tick = s := by
  unfold gateStep
  simp [h]

theorem gateStep_tick_open_cons (b : List MessageId)
    (rest d : List (List MessageId)) :
    gateStep ⟨true, b :: rest, d⟩ GateEvent.tick = ⟨true, rest, d ++ [b]⟩ := rfl

theorem gateRunFrom_order (evs : List GateEvent) (s : GateSystem) :
    (gateRunFrom s evs).dispatched ++ (gateRunFrom s evs).pending
      = s.dispatched ++ s.pending ++ submits evs := by
  induction evs generalizing s with
  | nil => simp [gateRunFrom, submits]
  | cons e rest ih =>
    simp only [gateRunFrom, List.foldl_cons] at ih ⊢
    rw [ih (gateStep s e)]
    cases e with
    | submit b => simp [gateStep_submit, submits]
    | setGate g => simp [gateStep_setGate, submits]
    | tick =>
      cases hg : s.gateOpen with
      | false => rw [gateStep_tick_closed s hg]; simp [submits]
      | true =>
        cases hp : s.pending with
        | nil =>
          have : gateStep s GateEvent.tick = s := by
            unfold gateStep
            simp [hg, hp]
          rw [this]
          simp [submits, hp]
        | cons b prest =>
          have : gateStep s GateEvent.tick =
              { s with pending := prest, dispatched := s.dispatched ++ [b] } := by
            unfold gateStep
            simp [hg, hp]
          rw [this]
          simp [submits, hp]

theorem gateRunFrom_closed (evs : List GateEvent) (s : GateSystem)
    (hno : GateEvent.setGate true ∉ evs) (hg : s.gateOpen = false) :
    (gateRunFrom s evs).dispatched = s.dispatched ∧
    (gateRunFrom s evs).gateOpen = false := by
  induction evs generalizing s with
  | nil => exact ⟨rfl, hg⟩
  | cons e rest ih =>
    have hrest : GateEvent.setGate true ∉ rest := fun h =>
      hno (List.mem_cons_of_mem _ h)
    simp only [gateRunFrom, List.foldl_cons] at ih ⊢
    have hstep : (gateStep s e).dispatched = s.dispatched ∧
        (gateStep s e).gateOpen = false := by
      cases e with
      | submit b => exact ⟨rfl, hg⟩
      | setGate g =>
        cases g with
        | false => exact ⟨rfl, rfl⟩
        | true => exact absurd (List.mem_cons_self _ _) hno
      | tick => rw [gateStep_tick_closed s hg]; exact ⟨rfl, hg⟩
    obtain ⟨hd, hgo⟩ := ih (gateStep s e) hrest hstep.2
    exact ⟨hd.trans hstep.1, hgo⟩

theorem gateRunFrom_drain (p d : List (List MessageId)) :
    gateRunFrom ⟨true, p, d⟩ (List.replicate p.length GateEvent.tick)
      = ⟨true, [], d ++ p⟩ := by
  induction p generalizing d with
  | nil => simp [gateRunFrom]
  | cons b rest ih =>
    simp only [List.length_cons, List.replicate_succ, gateRunFrom,
      List.foldl_cons]
    rw [gateStep_tick_open_cons b rest d]
    simpa [List.append_assoc] using ih (d ++ [b])

theorem gateRun_append (g0 : Bool) (evs evs2 : List GateEvent) :
    gateRun g0 (evs ++ evs2) = gateRunFrom (gateRun g0 evs) evs2 := by
  simp [gateRun, gateRunFrom, List.foldl_append]

/-- C2: Gate suspension — a dispatch opportunity while the gate is CLOSED
dispatches nothing, no matter how many batches are pending; a whole trace
that never opens the gate, started closed, dispatches nothing at all; over
any trace the dispatched batches followed by the still-pending ones are
exactly the submitted batches in submission order; and once the gate
transitions to OPEN, enough dispatch opportunities deliver every submitted
batch, in submission order. -/
theorem gate_suspension (evs : List GateEvent) (g0 : Bool)
    (hClosed : GateEvent.setGate true ∉ evs) :
    (∀ (p d : List (List MessageId)),
      gateStep ⟨false, p, d⟩ GateEvent.tick = ⟨false, p, d⟩) ∧
    (gateRun false evs).dispatched = [] ∧
    (∀ evs2 : List GateEvent,
      (gateRun g0 evs2).dispatched ++ (gateRun g0 evs2).pending
        = submits evs2) ∧
    (∀ evs2 : List GateEvent,
      (gateRun g0 (evs2 ++ GateEvent.setGate true ::
          List.replicate (gateRun g0 evs2).pending.length GateEvent.tick)).dispatched
        = submits evs2) := by
  refine ⟨fun p d => gateStep_tick_closed _ rfl, ?_, ?_, ?_⟩
  · exact (gateRunFrom_closed evs _ hClosed rfl).1
  · intro evs2
    have h := gateRunFrom_order evs2 { gateOpen := g0, pending := [], dispatched := [] }
    simpa [gateRun] using h
  · intro evs2
    have horder := gateRunFrom_order evs2
      { gateOpen := g0, pending := [], dispatched := [] }
    rw [show (GateEvent.setGate true ::
        List.replicate (gateRun g0 evs2).pending.length GateEvent.tick)
      = [GateEvent.setGate true] ++
        List.replicate (gateRun g0 evs2).pending.length GateEvent.tick from rfl]
    rw [← List.append_assoc]
    rw [gateRun_append g0 (evs2 ++ [GateEvent.setGate true]) _, gateRun_append g0 evs2 _]
    have hset : gateRunFrom (gateRun g0 evs2) [GateEvent.setGate true]
        = ⟨true, (gateRun g0 evs2).pending, (gateRun g0 evs2).dispatched⟩ := by
      simp [gateRunFrom, gateStep_setGate]
    rw [hset, gateRunFrom_drain]
    simpa [gateRun] using horder

/-- C2 witness: with the gate closed from the start, a submitted batch stays
undispatched; after opening and one dispatch opportunity it is delivered. -/
theorem gate_suspension_witness :
    gateStep ⟨false, [["a"]], []⟩ GateEvent.tick = ⟨false, [["a"]], []⟩ ∧
    (gateRun false [GateEvent.submit ["a"], GateEvent.tick]).dispatched = [] ∧
    (gateRun false ([GateEvent.submit ["a"], GateEvent.tick] ++
        GateEvent.setGate true ::
        List.replicate (gateRun false
          [GateEvent.submit ["a"], GateEvent.tick]).pending.length
          GateEvent.tick)).dispatched
      = submits [GateEvent.submit ["a"], GateEvent.tick] :=
  ⟨(gate_suspension [GateEvent.submit ["a"], GateEvent.tick] false
      (by decide)).1 [["a"]] [],
   (gate_suspension [GateEvent.submit ["a"], GateEvent.tick] false
      (by decide)).2.1,
   (gate_suspension [GateEvent.submit ["a"], GateEvent.tick] false
      (by decide)).2.2.2 [GateEvent.submit ["a"], GateEvent.tick]⟩

/-! ### Claim theorems: the dispatcher loop -/

theorem processBatch_admitState (permFails : List MessageId → Bool)
    (s : DispatchState) (b : List MessageId) :
    (processBatch permFails s b).admitState = s.admitState := by
  unfold processBatch
  split <;> rfl

theorem processBatches_admitState (permFails : List MessageId → Bool)
    (bs : List (List MessageId)) (s : DispatchState) :
    (processBatches permFails s bs).admitState = s.admitState := by
  induction bs generalizing s with
  | nil => rfl
  | cons b rest ih =>
    simp only [processBatches, List.foldl_cons] at ih ⊢
    exact (ih (processBatch permFails s b)).trans
      (processBatch_admitState permFails s b)

theorem processBatch_total (permFails : List MessageId → Bool)
    (s : DispatchState) (b : List MessageId) :
    (processBatch permFails s b).acked.length
      + (processBatch permFails s b).failedLog.length
      = s.acked.length + s.failedLog.length + 1 := by
  unfold processBatch
  split <;> simp <;> omega

theorem processBatches_total (permFails : List MessageId → Bool)
    (bs : List (List MessageId)) (s : DispatchState) :
    (processBatches permFails s bs).acked.length
      + (processBatches permFails s bs).failedLog.length
      = s.acked.length + s.failedLog.length + bs.length := by
  induction bs generalizing s with
  | nil => simp [processBatches]
  | cons b rest ih =>
    simp only [processBatches, List.foldl_cons] at ih ⊢
    rw [ih (processBatch permFails s b), processBatch_total]
    simp only [List.length_cons]
    omega

theorem processBatches_mem_mono (permFails : List MessageId → Bool)
    (bs : List (List MessageId)) (s : DispatchState) (b : List MessageId)
    (h : b ∈ s.acked ∨ b ∈ s.failedLog) :
    b ∈ (processBatches permFails s bs).acked
      ∨ b ∈ (processBatches permFails s bs).failedLog := by
  induction bs generalizing s with
  | nil => exact h
  | cons c rest ih =>
    simp only [processBatches, List.foldl_cons] at ih ⊢
    refine ih (processBatch permFails s c) ?_
    unfold processBatch
    split
    · rcases h with h | h
      · exact Or.inl h
      · exact Or.inr (by simp [h])
    · rcases h with h | h
      · exact Or.inl (by simp [h])
      · exact Or.inr h

theorem processBatch_mem_self (permFails : List MessageId → Bool)
    (s : DispatchState) (b : List MessageId) :
    b ∈ (processBatch permFails s b).acked
      ∨ b ∈ (processBatch permFails s b).failedLog := by
  unfold processBatch
  split
  · exact Or.inr (by simp)
  · exact Or.inl (by simp)

/-- C8: Terminal-failure isolation and no rollback — the dispatcher loop
never writes the admission-time state (so neither the dedup set nor the
optimistic read set is reverted for a failed batch: its ids stay marked read
locally); every batch in the input, including every batch after a permanently
failing one, reaches a terminal outcome — acknowledged or logged-failed — so
a permanently failing batch does not block the pipeline and the consuming
stream is not terminated. -/
theorem terminal_failure_isolation (permFails : List MessageId → Bool)
    (s : DispatchState) (bs : List (List MessageId)) :
    (processBatches permFails s bs).admitState = s.admitState ∧
    (processBatches permFails s bs).acked.length
      + (processBatches permFails s bs).failedLog.length
      = s.acked.length + s.failedLog.length + bs.length ∧
    ∀ b ∈ bs, b ∈ (processBatches permFails s bs).acked
      ∨ b ∈ (processBatches permFails s bs).failedLog := by
  refine ⟨processBatches_admitState permFails bs s,
    processBatches_total permFails bs s, ?_⟩
  intro b hb
  induction bs generalizing s with
  | nil => cases hb
  | cons c rest ih =>
    simp only [processBatches, List.foldl_cons]
    rcases List.mem_cons.mp hb with hb | hb
    · subst hb
      exact processBatches_mem_mono permFails rest (processBatch permFails s b) b
        (processBatch_mem_self permFails s b)
    · exact ih (processBatch permFails s c) hb

/-- C8 witness: a permanently failing batch `["bad"]` is logged while the
following batch `["c"]` is still acknowledged, and the admission-time state
is untouched. -/
theorem terminal_failure_isolation_witness :
    (processBatches (fun b => b.contains "bad") dispatchInit
        [["bad"], ["c"]]).admitState = dispatchInit.admitState ∧
    (["c"] ∈ (processBatches (fun b => b.contains "bad") dispatchInit
        [["bad"], ["c"]]).acked
      ∨ ["c"] ∈ (processBatches (fun b => b.contains "bad") dispatchInit
        [["bad"], ["c"]]).failedLog) :=
  ⟨(terminal_failure_isolation (fun b => b.contains "bad") dispatchInit
      [["bad"], ["c"]]).1,
   (terminal_failure_isolation (fun b => b.contains "bad") dispatchInit
      [["bad"], ["c"]]).2.2 ["c"] (by decide)⟩

/-! ### Claim theorems: the read-status merge -/

/-- C10: Read-status merge frame property — the merged list has the same
length as the input, and (order being positional) the element at each index
agrees with the input message at that index on `id` and on every field other
than `readAt`; a non-null input `readAt` is returned unchanged, and whenever
the output `readAt` differs from the input one, the input `readAt` was null,
the id is in the optimistic read set, and the output `readAt` is the merge
evaluation's clock value. -/
theorem merge_frame_property (msgs : List Message)
    (readIds : List MessageId) (now : Nat) :
    (messagesWithReadStatus msgs readIds now).length = msgs.length ∧
    ∀ (i : Nat) (hi : i < msgs.length)
      (ho : i < (messagesWithReadStatus msgs readIds now).length),
      ((messagesWithReadStatus msgs readIds now).get ⟨i, ho⟩).id
          = (msgs.get ⟨i, hi⟩).id ∧
      ((messagesWithReadStatus msgs readIds now).get ⟨i, ho⟩).payload
          = (msgs.get ⟨i, hi⟩).payload ∧
      ((msgs.get ⟨i, hi⟩).readAt ≠ none →
        ((messagesWithReadStatus msgs readIds now).get ⟨i, ho⟩).readAt
          = (msgs.get ⟨i, hi⟩).readAt) ∧
      (((messagesWithReadStatus msgs readIds now).get ⟨i, ho⟩).readAt
          ≠ (msgs.get ⟨i, hi⟩).readAt →
        (msgs.get ⟨i, hi⟩).readAt = none ∧
        readIds.contains (msgs.get ⟨i, hi⟩).id = true ∧
        ((messagesWithReadStatus msgs readIds now).get ⟨i, ho⟩).readAt
          = some now) := by
  constructor
  · simp [messagesWithReadStatus]
  · intro i hi ho
    have hout : (messagesWithReadStatus msgs readIds now).get ⟨i, ho⟩
        = if readIds.contains (msgs.get ⟨i, hi⟩).id = true
             ∧ (msgs.get ⟨i, hi⟩).readAt = none
          then { msgs.get ⟨i, hi⟩ with readAt := some now }
          else msgs.get ⟨i, hi⟩ := by
      simp [messagesWithReadStatus, List.get_eq_getElem, List.getElem_map]
    rw [hout]
    by_cases hc : readIds.contains (msgs.get ⟨i, hi⟩).id = true
        ∧ (msgs.get ⟨i, hi⟩).readAt = none
    · rw [if_pos hc]
      refine ⟨rfl, rfl, ?_, ?_⟩
      · intro hne
        exact absurd hc.2 hne
      · intro _
        exact ⟨hc.2, hc.1, rfl⟩
    · rw [if_neg hc]
      exact ⟨rfl, rfl, fun _ => rfl, fun hne => absurd rfl hne⟩

/-- C10 witness: the frame property at index 0 of a one-message list whose
unread message is in the optimistic read set. -/
theorem merge_frame_property_witness :
    (messagesWithReadStatus [exampleMessage] ["m1"] 9).length
        = [exampleMessage].length ∧
    ((messagesWithReadStatus [exampleMessage] ["m1"] 9).get
        ⟨0, by decide⟩).id = ([exampleMessage].get ⟨0, by decide⟩).id ∧
    ((messagesWithReadStatus [exampleMessage] ["m1"] 9).get
        ⟨0, by decide⟩).payload = ([exampleMessage].get ⟨0, by decide⟩).payload :=
  ⟨(merge_frame_property [exampleMessage] ["m1"] 9).1,
   ((merge_frame_property [exampleMessage] ["m1"] 9).2 0 (by decide) (by decide)).1,
   ((merge_frame_property [exampleMessage] ["m1"] 9).2 0 (by decide) (by decide)).2.1⟩

end ReadReceipt
